import Mathlib

/-
Formal model of the kingpin actor engine: the Group/Sync/Async composition
logic (kingpin/actors/group.py), the ELB wait/register/deregister actors
(kingpin/actors/aws/elb.py) and the packagecloud actors
(kingpin/actors/packagecloud.py).

Machine integers are modelled as Nat/Int, timestamps as Int (seconds),
fallible construction as Except, and the tornado coroutine loops as
fuel-indexed recursions.  External mutations are recorded as explicit
effect values rather than performed.
-/

/-! ## Execution model for groups (kingpin/actors/group.py)

A group holds a list of already-constructed child actors (`self._actions`)
and runs each child's `execute()` coroutine.  A child is modelled by the
observable behaviour of its `execute()`: a list of internal work steps and
the final boolean result.  Events are tagged with the child's position in
the group's `acts` list; `began`/`finished` mirror the log lines emitted by
`Sync._run_actions` around each `yield act.execute()`. -/

inductive Event where
  | began (child : Nat)
  | step (child : Nat) (n : Nat)
  | finished (child : Nat) (result : Bool)
  deriving DecidableEq

/-- The position (in the group's action list) an event belongs to. -/
def Event.child : Event → Nat
  | .began i => i
  | .step i _ => i
  | .finished i _ => i

/-- Whether an event is the start of a child's execution. -/
def Event.is_began : Event → Bool
  | .began _ => true
  | _ => false

/-- A child actor as a group sees it: the observable behaviour of its
`execute()` coroutine — internal work steps plus the boolean it returns. -/
structure Child where
  body : List Nat
  result : Bool
  deriving DecidableEq

/-- The events child number `i` emits while its `execute()` runs. -/
def Child.exec_trace (i : Nat) (c : Child) : List Event :=
  c.body.map (Event.step i)

/-- Loop body of `Sync._run_actions` (group.py lines 88-99), threading the
position of the current child: log Beginning, `ret = yield act.execute()`
(the child runs to completion), log Finished, append `ret` to `returns`,
and move to the next child — with no early exit on a false result. -/
def Sync._run_actions_from (i : Nat) : List Child → List Event × List Bool
  | [] => ([], [])
  | act :: rest =>
    let tr := Event.began i :: (Child.exec_trace i act ++ [Event.finished i act.result])
    let r := Sync._run_actions_from (i + 1) rest
    (tr ++ r.1, act.result :: r.2)

/-- `Sync._run_actions`: synchronously executes all of the child actors in
declaration order and returns the list of their results. -/
def Sync._run_actions (acts : List Child) : List Event × List Bool :=
  Sync._run_actions_from 0 acts

/-- First phase of `Async._run_actions` (group.py lines 106-113): the
`for act in self._actions: executions.append(act.execute())` loop starts
every child before anything is awaited. -/
def Async.start_all (i : Nat) : List Child → List Event
  | [] => []
  | _ :: rest => Event.began i :: Async.start_all (i + 1) rest

/-- Second phase of `Async._run_actions`: `ret = yield executions` waits for
every started child to finish and collects the results in list order. -/
def Async.join_all (i : Nat) : List Child → List Event × List Bool
  | [] => ([], [])
  | act :: rest =>
    let r := Async.join_all (i + 1) rest
    (Child.exec_trace i act ++ [Event.finished i act.result] ++ r.1, act.result :: r.2)

/-- `Async._run_actions`: start every child, then join all of them. -/
def Async._run_actions (acts : List Child) : List Event × List Bool :=
  (Async.start_all 0 acts ++ (Async.join_all 0 acts).1, (Async.join_all 0 acts).2)

/-- `BaseGroupActor._execute` (group.py lines 70-81):
`ret = yield self._run_actions(); return all(ret)`. -/
def BaseGroupActor._execute (run_actions : List Child → List Event × List Bool)
    (acts : List Child) : List Event × Bool :=
  let r := run_actions acts
  (r.1, r.2.all id)

/-- Executing a Sync group: `BaseGroupActor._execute` over `Sync._run_actions`. -/
def Sync.execute (acts : List Child) : List Event × Bool :=
  BaseGroupActor._execute Sync._run_actions acts

/-- Executing an Async group: `BaseGroupActor._execute` over `Async._run_actions`. -/
def Async.execute (acts : List Child) : List Event × Bool :=
  BaseGroupActor._execute Async._run_actions acts

/-! ## Construction model for groups

`BaseGroupActor.__init__` builds every child actor up front via
`_build_actions` (group.py lines 40-68), which calls
`kingpin.actors.utils.get_actor(act, dry=self._dry)` on each child
specification.  An actor specification tree and the built actor tree are
mutually inductive with their child lists. -/

inductive ConfigError where
  | invalid_options
  deriving DecidableEq

mutual
/-- A declarative actor specification: a leaf actor (with an id, a flag
saying whether its options validate, and the result its execution would
produce) or a Sync/Async group of child specifications. -/
inductive ActSpec where
  | leaf (id_ : Nat) (valid : Bool) (result : Bool)
  | sync (acts : ActList)
  | async (acts : ActList)
/-- A list of actor specifications (the group's `acts` option). -/
inductive ActList where
  | nil
  | cons (head : ActSpec) (tail : ActList)
end

mutual
/-- A fully constructed actor; every node records the dry-run flag it was
constructed with. -/
inductive BuiltActor where
  | leaf (dry : Bool) (id_ : Nat) (result : Bool)
  | sync (dry : Bool) (acts : BuiltList)
  | async (dry : Bool) (acts : BuiltList)
/-- A list of constructed child actors (the group's `self._actions`). -/
inductive BuiltList where
  | nil
  | cons (head : BuiltActor) (tail : BuiltList)
end

mutual
/-- Modelled from the spec: `kingpin.actors.utils.get_actor` (not under
src/) resolves an actor specification to its class and instantiates it with
the supplied dry flag, failing fast on invalid options.  For a group
specification this runs `BaseGroupActor.__init__`, whose `_build_actions`
(group.py lines 55-68) constructs every child with `dry=self._dry` before
construction completes. -/
def get_actor : ActSpec → Bool → Except ConfigError BuiltActor
  | .leaf i v r, dry =>
    if v then .ok (.leaf dry i r) else .error ConfigError.invalid_options
  | .sync acts, dry =>
    match _build_actions acts dry with
    | .ok l => .ok (.sync dry l)
    | .error e => .error e
  | .async acts, dry =>
    match _build_actions acts dry with
    | .ok l => .ok (.async dry l)
    | .error e => .error e
/-- `BaseGroupActor._build_actions` (group.py lines 55-68): construct each
child in order with `utils.get_actor(act, dry=self._dry)`; the first
construction error aborts tree assembly. -/
def _build_actions : ActList → Bool → Except ConfigError BuiltList
  | .nil, _ => .ok .nil
  | .cons a rest, dry =>
    match get_actor a dry with
    | .ok x =>
      match _build_actions rest dry with
      | .ok xs => .ok (.cons x xs)
      | .error e => .error e
    | .error e => .error e
end

mutual
/-- Whether every node of a built actor tree carries the given dry flag. -/
def BuiltActor.all_dry : BuiltActor → Bool → Bool
  | .leaf d _ _, dry => d == dry
  | .sync d acts, dry => (d == dry) && BuiltList.all_dry acts dry
  | .async d acts, dry => (d == dry) && BuiltList.all_dry acts dry
/-- Whether every node of a built actor list carries the given dry flag. -/
def BuiltList.all_dry : BuiltList → Bool → Bool
  | .nil, _ => true
  | .cons a rest, dry => BuiltActor.all_dry a dry && BuiltList.all_dry rest dry
end

mutual
/-- Whether a specification tree contains a leaf with invalid options. -/
def ActSpec.has_invalid : ActSpec → Bool
  | .leaf _ v _ => !v
  | .sync acts => ActList.has_invalid acts
  | .async acts => ActList.has_invalid acts
/-- Whether a specification list contains a leaf with invalid options. -/
def ActList.has_invalid : ActList → Bool
  | .nil => false
  | .cons a rest => ActSpec.has_invalid a || ActList.has_invalid rest
end

mutual
/-- Executing a built actor: a leaf records its id as an execution event and
returns its result; a group runs its children and ANDs their results. -/
def BuiltActor.execute : BuiltActor → List Nat × Bool
  | .leaf _ i r => ([i], r)
  | .sync _ acts =>
    let r := BuiltList.run acts
    (r.1, r.2.all id)
  | .async _ acts =>
    let r := BuiltList.run acts
    (r.1, r.2.all id)
/-- Executing a list of built actors, collecting events and results. -/
def BuiltList.run : BuiltList → List Nat × List Bool
  | .nil => ([], [])
  | .cons a rest =>
    let r1 := BuiltActor.execute a
    let r2 := BuiltList.run rest
    (r1.1 ++ r2.1, r1.2 :: r2.2)
end

/-- Full lifecycle of one actor specification: construct the whole tree
first (`BaseGroupActor.__init__` pre-initializes every child), and only if
construction succeeded execute it.  A construction error yields an empty
execution trace: no child's `execute` is ever invoked. -/
def run_actor (s : ActSpec) (dry : Bool) : List Nat × Except ConfigError Bool :=
  match get_actor s dry with
  | .error e => ([], .error e)
  | .ok a =>
    let r := BuiltActor.execute a
    (r.1, .ok r.2)

/-! ## WaitUntilHealthy (kingpin/actors/aws/elb.py) -/

/-- The `count` option of `WaitUntilHealthy`: Python accepts an int or a
percentage string; `'%' in str(count)` selects the branch.  A percentage
string carries its numeric value, e.g. `"50%"` carries 50. -/
inductive CountOpt where
  | int (n : Int)
  | pct (p : ℚ)
  deriving DecidableEq

/-- `p2f` (elb.py lines 46-51): converts a percentage string into a
fraction, `"78.9%"` into 0.789 — i.e. the numeric value divided by 100. -/
def p2f (p : ℚ) : ℚ :=
  p / 100

/-- `WaitUntilHealthy._get_expected_count` (elb.py lines 115-135):
`math.ceil(total_count * p2f(count))` for a percentage, else the literal
integer. -/
def WaitUntilHealthy._get_expected_count (count : CountOpt) (total_count : Nat) : Int :=
  match count with
  | .pct p => Int.ceil ((total_count : ℚ) * p2f p)
  | .int n => n

/-- The instance state string counted by `_is_healthy`. -/
def in_service_state : String := "InService"

/-- `WaitUntilHealthy._is_healthy` (elb.py lines 139-166): count the
`"InService"` entries among the ELB's instance states and compare with the
expected count: `healthy = (in_service_count >= expected_count)`. -/
def WaitUntilHealthy._is_healthy (instance_list : List String) (count : CountOpt) : Bool :=
  let total_count := instance_list.length
  let in_service_count := instance_list.count in_service_state
  let expected_count := WaitUntilHealthy._get_expected_count count total_count
  decide ((in_service_count : Int) ≥ expected_count)

/-- The `while True` loop of `WaitUntilHealthy._execute` (elb.py lines
181-195), fuel-indexed.  `healthy_seq k` is the outcome of the k-th health
check.  Each iteration evaluates the condition once; a true result breaks,
otherwise in dry mode the loop breaks anyway ("Pretending that ELB is
healthy"), otherwise it sleeps and retries.  Returns the number of
condition evaluations performed when the loop exits, `none` if the fuel ran
out with the loop still running. -/
def WaitUntilHealthy.wait_loop (dry : Bool) (healthy_seq : Nat → Bool) :
    Nat → Nat → Option Nat
  | 0, _ => none
  | fuel + 1, evals =>
    let healthy := healthy_seq evals
    if healthy then some (evals + 1)
    else if dry then some (evals + 1)
    else WaitUntilHealthy.wait_loop dry healthy_seq fuel (evals + 1)

/-- `WaitUntilHealthy._execute`: run the poll loop from zero evaluations. -/
def WaitUntilHealthy._execute (dry : Bool) (healthy_seq : Nat → Bool) (fuel : Nat) :
    Option Nat :=
  WaitUntilHealthy.wait_loop dry healthy_seq fuel 0

/-! ## The retry wrapper and the register/deregister actors (elb.py) -/

/-- The error taxonomy of `kingpin.actors.exceptions` relevant here. -/
inductive ActorError where
  | unrecoverable
  | operational
  deriving DecidableEq

/-- Models the bare `@retry` decorator of the third-party `retrying`
library applied at elb.py lines 220 and 264: with no arguments it retries
the wrapped call on every exception, indefinitely and without
discriminating between exception types.  `op k` is the outcome of the k-th
attempt.  Fuel-indexed: returns the number of attempts made, paired with
`some ()` once an attempt succeeds, or `none` if the fuel ran out with the
wrapper still retrying (no error has propagated). -/
def retrying_retry (op : Nat → Except ActorError Unit) : Nat → Nat → Nat × Option Unit
  | 0, attempts => (attempts, none)
  | fuel + 1, attempts =>
    match op attempts with
    | .ok u => (attempts + 1, some u)
    | .error _ => retrying_retry op fuel (attempts + 1)

/-- `RegisterInstance._add` (elb.py lines 218-230): `elb.register_instances`
wrapped in the bare `@retry` decorator. -/
def RegisterInstance._add (op : Nat → Except ActorError Unit) (fuel : Nat) :
    Nat × Option Unit :=
  retrying_retry op fuel 0

/-- `DeregisterInstance._remove` (elb.py lines 262-274):
`elb.deregister_instances` wrapped in the bare `@retry` decorator. -/
def DeregisterInstance._remove (op : Nat → Except ActorError Unit) (fuel : Nat) :
    Nat × Option Unit :=
  retrying_retry op fuel 0

/-- External calls the modelled actors can make, recorded instead of
performed. -/
inductive Effect where
  | find_elb (name : String)
  | register_instances (elb : String) (instances : List String)
  | deregister_instances (elb : String) (instances : List String)
  | http_delete (repo : String) (distro_version : String) (filename : String)
  deriving DecidableEq

/-- The `instance_id` option: a single id string or a list of ids. -/
inductive InstanceIdOpt where
  | str (s : String)
  | list (l : List String)
  deriving DecidableEq

/-- The `if type(self.option("instance_id")) is not list: instances =
[self.option("instance_id")]` normalisation (elb.py lines 235-237). -/
def instance_id_list : InstanceIdOpt → List String
  | .str s => [s]
  | .list l => l

/-- `RegisterInstance._execute` (elb.py lines 232-243): find the ELB, then
`if not self._dry: yield self._add(elb, instances)`. -/
def RegisterInstance._execute (dry : Bool) (elb : String) (instance_id : InstanceIdOpt) :
    List Effect :=
  Effect.find_elb elb ::
    (if !dry then [Effect.register_instances elb (instance_id_list instance_id)] else [])

/-- `DeregisterInstance._execute` (elb.py lines 276-287): find the ELB,
then `if not self._dry: yield self._remove(elb, instances)`. -/
def DeregisterInstance._execute (dry : Bool) (elb : String) (instance_id : InstanceIdOpt) :
    List Effect :=
  Effect.find_elb elb ::
    (if !dry then [Effect.deregister_instances elb (instance_id_list instance_id)] else [])

/-! ## packagecloud actors (kingpin/actors/packagecloud.py) -/

/-- One package entry as returned by the packagecloud API, reduced to the
fields `_delete` uses: name, creation time (seconds), distro version, and
the filename extracted from `package_html_url`. -/
structure Package where
  name : String
  created_at : Int
  distro_version : String
  filename : String
  deriving DecidableEq

/-- One insertion step of a stable sort by descending `created_at`:
an element already in place stays before `p` whenever its key is at least
`p`'s key, so equal keys keep their original relative order. -/
def insert_desc (p : Package) : List Package → List Package
  | [] => [p]
  | q :: rest =>
    if p.created_at ≤ q.created_at then q :: insert_desc p rest
    else p :: q :: rest

/-- The `versions.sort(key=lambda x: x.get("created_at"), reverse=True)`
call (packagecloud.py line 127): a stable sort by descending creation
date. -/
def sort_created_desc (l : List Package) : List Package :=
  l.foldl (fun acc p => insert_desc p acc) []

/-- `PackagecloudBase._get_package_versions` (packagecloud.py lines
109-128): every package whose name equals `name`, sorted by creation date,
newest first. -/
def PackagecloudBase._get_package_versions (name : String) (all_packages : List Package) :
    List Package :=
  sort_created_desc (all_packages.filter (fun package => package.name == name))

/-- `PackagecloudBase._get_packages_list_to_delete` (packagecloud.py lines
131-149): the unique names among `all_packages` matching the delete
pattern.  The regex `pattern.match` is modelled as an abstract predicate on
names; `set()` is modelled as deduplication. -/
def PackagecloudBase._get_packages_list_to_delete (pattern : String → Bool)
    (all_packages : List Package) : List String :=
  ((all_packages.filter (fun package => pattern package.name)).map Package.name).dedup

/-- The inner `for package in package_versions` loop of
`PackagecloudBase._delete` (packagecloud.py lines 178-210), with
`number_in_repo` threaded through: break once `number_in_repo <=
number_to_keep`; skip (without decrementing) packages younger than
`older_than` seconds when that option is nonzero (Python truthiness);
otherwise delete — recording an HTTP delete effect only when not in dry
mode — then decrement `number_in_repo` and record the package in
`deleted_packages`. -/
def delete_versions (dry : Bool) (repo : String) (older_than : Nat) (number_to_keep : Nat)
    (now : Int) : List Package → Nat → List Package × List Effect
  | [], _ => ([], [])
  | package :: rest, number_in_repo =>
    if number_in_repo ≤ number_to_keep then ([], [])
    else if older_than ≠ 0 ∧ now - package.created_at ≤ (older_than : Int) then
      delete_versions dry repo older_than number_to_keep now rest number_in_repo
    else
      let effs :=
        if dry then []
        else [Effect.http_delete repo package.distro_version package.filename]
      let r := delete_versions dry repo older_than number_to_keep now rest (number_in_repo - 1)
      (package :: r.1, effs ++ r.2)

/-- The outer `for name in packages_list_to_delete` loop of
`PackagecloudBase._delete` (packagecloud.py lines 172-210): for each name,
fetch its versions and run the per-version loop starting from
`number_in_repo = len(package_versions)`. -/
def delete_names (dry : Bool) (repo : String) (older_than : Nat) (number_to_keep : Nat)
    (now : Int) (all_packages : List Package) : List String → List Package × List Effect
  | [] => ([], [])
  | name :: rest =>
    let package_versions := PackagecloudBase._get_package_versions name all_packages
    let r1 := delete_versions dry repo older_than number_to_keep now
      package_versions package_versions.length
    let r2 := delete_names dry repo older_than number_to_keep now all_packages rest
    (r1.1 ++ r2.1, r1.2 ++ r2.2)

/-- `PackagecloudBase._delete` (packagecloud.py lines 151-212) given the
API's package listing: compute the unique matching names, then run the
deletion loops.  Returns `deleted_packages` and the HTTP delete effects
issued. -/
def PackagecloudBase._delete (dry : Bool) (pattern : String → Bool) (repo : String)
    (older_than : Nat) (number_to_keep : Nat) (now : Int) (all_packages : List Package) :
    List Package × List Effect :=
  delete_names dry repo older_than number_to_keep now all_packages
    (PackagecloudBase._get_packages_list_to_delete pattern all_packages)

/-- The `while True` loop of `WaitForPackage._execute` (packagecloud.py
lines 434-450), fuel-indexed.  `matched_seq k` is the number of packages
the k-th `_search` call finds.  The loop returns only when a search finds
at least one package; the actor's dry flag is carried but never consulted
by the loop body.  Returns the number of searches performed when the loop
exits, `none` if the fuel ran out with the loop still running. -/
def WaitForPackage.search_loop (dry : Bool) (matched_seq : Nat → Nat) :
    Nat → Nat → Option Nat
  | 0, _ => none
  | fuel + 1, evals =>
    if matched_seq evals > 0 then some (evals + 1)
    else WaitForPackage.search_loop dry matched_seq fuel (evals + 1)

/-- `WaitForPackage._execute`: run the search loop from zero searches. -/
def WaitForPackage._execute (dry : Bool) (matched_seq : Nat → Nat) (fuel : Nat) :
    Option Nat :=
  WaitForPackage.search_loop dry matched_seq fuel 0

/-! ## Concrete inputs used by witnesses -/

/-- A two-child action list whose first child fails: used to witness the
Sync ordering claim. -/
def acts_c2 : List Child := [⟨[7], false⟩, ⟨[], true⟩]

/-- A two-child action list whose second child fails: used to witness the
Async join-all claim. -/
def acts_c3 : List Child := [⟨[], true⟩, ⟨[4, 4], false⟩]

/-- A nested child-specification list, all children valid: used to witness
the dry-run propagation claim. -/
def acts_c4 : ActList :=
  ActList.cons (ActSpec.leaf 1 true true)
    (ActList.cons (ActSpec.async (ActList.cons (ActSpec.leaf 2 true false) ActList.nil))
      ActList.nil)

/-- The children `_build_actions` builds from `acts_c4` with `dry = true`. -/
def built_c4 : BuiltList :=
  BuiltList.cons (BuiltActor.leaf true 1 true)
    (BuiltList.cons (BuiltActor.async true (BuiltList.cons (BuiltActor.leaf true 2 false)
      BuiltList.nil)) BuiltList.nil)

/-- A three-child group whose third child has invalid options: used to
witness the construction-time validation claim. -/
def acts_c8 : ActList :=
  ActList.cons (ActSpec.leaf 1 true true)
    (ActList.cons (ActSpec.leaf 2 true true)
      (ActList.cons (ActSpec.leaf 3 false true) ActList.nil))

/-! ## Helper lemmas about group execution -/

theorem Sync.run_from_cons (i : Nat) (a : Child) (rest : List Child) :
    (Sync._run_actions_from i (a :: rest)).1 =
      (Event.began i :: (Child.exec_trace i a ++ [Event.finished i a.result])) ++
        (Sync._run_actions_from (i + 1) rest).1 := rfl

theorem Sync.run_from_results (i : Nat) (acts : List Child) :
    (Sync._run_actions_from i acts).2 = acts.map Child.result := by
  induction acts generalizing i with
  | nil => rfl
  | cons a rest ih => simp [Sync._run_actions_from, ih]

theorem Async.join_all_results (i : Nat) (acts : List Child) :
    (Async.join_all i acts).2 = acts.map Child.result := by
  induction acts generalizing i with
  | nil => rfl
  | cons a rest ih => simp [Async.join_all, ih]

theorem count_began_exec_trace (i j : Nat) (c : Child) :
    (Child.exec_trace i c).count (Event.began j) = 0 := by
  rw [List.count_eq_zero]
  simp [Child.exec_trace]

theorem Sync.run_from_count_began (acts : List Child) (i j : Nat) :
    (Sync._run_actions_from i acts).1.count (Event.began j) =
      if i ≤ j ∧ j < i + acts.length then 1 else 0 := by
  induction acts generalizing i with
  | nil =>
    have h : ¬(i ≤ j ∧ j < i) := by omega
    simp [Sync._run_actions_from, h]
  | cons a rest ih =>
    rw [Sync.run_from_cons, List.count_append, ih]
    simp only [List.count_cons, List.count_append, count_began_exec_trace,
      List.count_singleton, List.length_cons]
    by_cases hij : j = i
    · simp [hij, beq_iff_eq]
    · simp [hij, beq_iff_eq]
      split_ifs <;> omega

theorem Sync.run_from_child_bounds (acts : List Child) (i : Nat) :
    ∀ e ∈ (Sync._run_actions_from i acts).1, i ≤ e.child ∧ e.child < i + acts.length := by
  induction acts generalizing i with
  | nil => simp [Sync._run_actions_from]
  | cons a rest ih =>
    intro e he
    rw [Sync.run_from_cons] at he
    simp only [List.mem_append, List.mem_cons, List.mem_singleton, Child.exec_trace,
      List.mem_map, List.not_mem_nil, or_false] at he
    rcases he with (rfl | ⟨x, _, rfl⟩ | rfl) | hrest
    · simp [Event.child]
    · simp [Event.child]
    · simp [Event.child]
    · have := ih (i + 1) e hrest
      simp only [List.length_cons]
      omega

theorem pairwise_le_of_const (l : List Nat) (i : Nat) (h : ∀ a ∈ l, a = i) :
    l.Pairwise (· ≤ ·) := by
  induction l with
  | nil => simp
  | cons x xs ih =>
    rw [List.pairwise_cons]
    refine ⟨fun b hb => ?_, ih (fun a ha => h a (by simp [ha]))⟩
    rw [h x (by simp), h b (by simp [hb])]

theorem child_mem_block (i a : Nat) (c : Child) (r : Bool)
    (ha : a ∈ (Event.began i :: (Child.exec_trace i c ++ [Event.finished i r])).map Event.child) :
    a = i := by
  simp only [List.map_cons, List.map_append, List.mem_cons, List.mem_append,
    List.mem_singleton, Child.exec_trace, List.map_map, List.mem_map, List.map_nil,
    List.not_mem_nil, or_false, Function.comp, Event.child] at ha
  rcases ha with rfl | ⟨x, _, rfl⟩ | rfl <;> rfl

theorem Sync.run_from_sorted (acts : List Child) (i : Nat) :
    ((Sync._run_actions_from i acts).1.map Event.child).Pairwise (· ≤ ·) := by
  induction acts generalizing i with
  | nil => simp [Sync._run_actions_from]
  | cons a rest ih =>
    rw [Sync.run_from_cons, List.map_append, List.pairwise_append]
    refine ⟨pairwise_le_of_const _ i (fun x hx => child_mem_block i x a a.result hx),
      ih (i + 1), fun x hx y hy => ?_⟩
    have hx' : x = i := child_mem_block i x a a.result hx
    simp only [List.mem_map] at hy
    obtain ⟨e, he, rfl⟩ := hy
    have := Sync.run_from_child_bounds rest (i + 1) e he
    omega

theorem Sync.run_from_mem (acts : List Child) (i j : Nat) (c : Child)
    (h : acts[j]? = some c) :
    Event.began (i + j) ∈ (Sync._run_actions_from i acts).1 ∧
      Event.finished (i + j) c.result ∈ (Sync._run_actions_from i acts).1 := by
  induction acts generalizing i j with
  | nil => simp at h
  | cons a rest ih =>
    cases j with
    | zero =>
      simp only [List.getElem?_cons_zero, Option.some_inj] at h
      subst h
      constructor <;> simp [Sync.run_from_cons]
    | succ j2 =>
      simp only [List.getElem?_cons_succ] at h
      have := ih (i + 1) j2 h
      have harith : i + (j2 + 1) = (i + 1) + j2 := by omega
      rw [harith]
      constructor <;> · rw [Sync.run_from_cons]; simp [this.1, this.2]

theorem Async.start_all_forall (i : Nat) (acts : List Child) :
    ∀ e ∈ Async.start_all i acts, e.is_began = true := by
  induction acts generalizing i with
  | nil => simp [Async.start_all]
  | cons a rest ih =>
    intro e he
    simp only [Async.start_all, List.mem_cons] at he
    rcases he with rfl | he
    · rfl
    · exact ih (i + 1) e he

theorem Async.start_all_length (i : Nat) (acts : List Child) :
    (Async.start_all i acts).length = acts.length := by
  induction acts generalizing i with
  | nil => rfl
  | cons a rest ih => simp [Async.start_all, ih]

theorem Async.join_all_no_began (i : Nat) (acts : List Child) :
    ∀ e ∈ (Async.join_all i acts).1, e.is_began = false := by
  induction acts generalizing i with
  | nil => simp [Async.join_all]
  | cons a rest ih =>
    intro e he
    simp only [Async.join_all, List.mem_append, List.mem_singleton, Child.exec_trace,
      List.mem_map] at he
    rcases he with (⟨x, _, rfl⟩ | rfl) | he
    · rfl
    · rfl
    · exact ih (i + 1) e he

theorem Async.start_all_mem (acts : List Child) (i j : Nat) (c : Child)
    (h : acts[j]? = some c) :
    Event.began (i + j) ∈ Async.start_all i acts := by
  induction acts generalizing i j with
  | nil => simp at h
  | cons a rest ih =>
    cases j with
    | zero => simp [Async.start_all]
    | succ j2 =>
      simp only [List.getElem?_cons_succ] at h
      have := ih (i + 1) j2 h
      have harith : i + (j2 + 1) = (i + 1) + j2 := by omega
      rw [harith]
      simp [Async.start_all, this]

theorem Async.join_all_mem (acts : List Child) (i j : Nat) (c : Child)
    (h : acts[j]? = some c) :
    Event.finished (i + j) c.result ∈ (Async.join_all i acts).1 := by
  induction acts generalizing i j with
  | nil => simp at h
  | cons a rest ih =>
    cases j with
    | zero =>
      simp only [List.getElem?_cons_zero, Option.some_inj] at h
      subst h
      simp [Async.join_all]
    | succ j2 =>
      simp only [List.getElem?_cons_succ] at h
      have := ih (i + 1) j2 h
      have harith : i + (j2 + 1) = (i + 1) + j2 := by omega
      rw [harith]
      simp [Async.join_all, this]

theorem dropWhile_append_of_forall {α : Type} (p : α → Bool) (s t : List α)
    (hs : ∀ e ∈ s, p e = true) (ht : ∀ e ∈ t, p e = false) :
    (s ++ t).dropWhile p = t := by
  induction s with
  | nil =>
    cases t with
    | nil => rfl
    | cons x xs =>
      simp only [List.nil_append, List.dropWhile_cons]
      rw [ht x (by simp)]
      simp
  | cons x xs ih =>
    simp only [List.cons_append, List.dropWhile_cons]
    rw [hs x (by simp)]
    simp only [if_pos rfl]
    exact ih (fun e he => hs e (by simp [he]))

/-! ## Claim theorems: group execution -/

theorem all_id_map_result (acts : List Child) :
    (acts.map Child.result).all id = acts.all Child.result := by
  induction acts with
  | nil => rfl
  | cons a rest ih => simp [ih]

/-- Claim C1: for every Group (Sync or Async) and every list of child
results, the Group's execute returns the logical AND of all child results:
it returns true if and only if every child's execute returned true. -/
theorem group_result_is_and_of_child_results (acts : List Child) :
    (Sync.execute acts).2 = acts.all Child.result ∧
    (Async.execute acts).2 = acts.all Child.result ∧
    ((Sync.execute acts).2 = true ↔ ∀ c ∈ acts, c.result = true) ∧
    ((Async.execute acts).2 = true ↔ ∀ c ∈ acts, c.result = true) := by
  have hs : (Sync.execute acts).2 = acts.all Child.result := by
    rw [Sync.execute, BaseGroupActor._execute]
    simp only [Sync._run_actions, Sync.run_from_results]
    exact all_id_map_result acts
  have ha : (Async.execute acts).2 = acts.all Child.result := by
    rw [Async.execute, BaseGroupActor._execute]
    simp only [Async._run_actions, Async.join_all_results]
    exact all_id_map_result acts
  refine ⟨hs, ha, ?_, ?_⟩
  · rw [hs]; exact List.all_eq_true
  · rw [ha]; exact List.all_eq_true

/-- Witness for C1 at a concrete group: a two-child list with one failing
child yields an aggregate of false in both modes. -/
theorem group_result_is_and_of_child_results_witness :
    (Sync.execute acts_c2).2 = acts_c2.all Child.result ∧
    ((Async.execute acts_c2).2 = true ↔ ∀ c ∈ acts_c2, c.result = true) :=
  ⟨(group_result_is_and_of_child_results acts_c2).1,
    (group_result_is_and_of_child_results acts_c2).2.2.2⟩

/-- Claim C2: a Sync group invokes every child's execute exactly once (one
`began` event per position), in declaration order with child i fully
completed before child i+1 begins (the event trace is sorted by child
position), and does not stop early on a child failure: the result list is
the full list of child results and every child has `began` and `finished`
events, whatever the results are. -/
theorem sync_runs_all_children_in_order (acts : List Child) :
    (Sync._run_actions acts).2 = acts.map Child.result ∧
    (∀ j, (Sync._run_actions acts).1.count (Event.began j) =
      if 0 ≤ j ∧ j < acts.length then 1 else 0) ∧
    ((Sync._run_actions acts).1.map Event.child).Pairwise (· ≤ ·) ∧
    (∀ j c, acts[j]? = some c →
      Event.began j ∈ (Sync._run_actions acts).1 ∧
      Event.finished j c.result ∈ (Sync._run_actions acts).1) := by
  refine ⟨Sync.run_from_results 0 acts, ?_, Sync.run_from_sorted acts 0, ?_⟩
  · intro j
    have := Sync.run_from_count_began acts 0 j
    simpa using this
  · intro j c h
    have := Sync.run_from_mem acts 0 j c h
    simpa using this

/-- Witness for C2: in a two-child Sync group whose first child fails, the
second child still begins and finishes (with its own result). -/
theorem sync_runs_all_children_in_order_witness :
    Event.began 1 ∈ (Sync._run_actions acts_c2).1 ∧
    Event.finished 1 true ∈ (Sync._run_actions acts_c2).1 :=
  (sync_runs_all_children_in_order acts_c2).2.2.2 1 ⟨[], true⟩ (by rfl)

/-- Claim C3: an Async group starts every child before any completion is
awaited (the trace has one `began` event per child and after the leading
`began` events no further `began` occurs), waits for every child to finish
(every child's `finished` event is in the trace and the result list covers
every child), and no child's failure cancels a sibling: all of this holds
for arbitrary child results, and the aggregate is computed from the full
result list. -/
theorem async_starts_all_then_joins_all (acts : List Child) :
    (Async._run_actions acts).2 = acts.map Child.result ∧
    (Async._run_actions acts).1.countP Event.is_began = acts.length ∧
    ((Async._run_actions acts).1.dropWhile Event.is_began).all
      (fun e => !e.is_began) = true ∧
    (∀ j c, acts[j]? = some c →
      Event.began j ∈ (Async._run_actions acts).1 ∧
      Event.finished j c.result ∈ (Async._run_actions acts).1) ∧
    (Async.execute acts).2 = (acts.map Child.result).all id := by
  refine ⟨Async.join_all_results 0 acts, ?_, ?_, ?_, ?_⟩
  · rw [Async._run_actions]
    simp only [List.countP_append]
    have h1 : (Async.start_all 0 acts).countP Event.is_began = (Async.start_all 0 acts).length :=
      (List.countP_eq_length).2 (Async.start_all_forall 0 acts)
    have h2 : (Async.join_all 0 acts).1.countP Event.is_began = 0 :=
      (List.countP_eq_zero).2 (by
        intro e he
        simp [Async.join_all_no_began 0 acts e he])
    rw [h1, h2, Async.start_all_length]
    omega
  · rw [Async._run_actions]
    simp only
    rw [dropWhile_append_of_forall Event.is_began _ _ (Async.start_all_forall 0 acts)
      (Async.join_all_no_began 0 acts)]
    rw [List.all_eq_true]
    intro e he
    simp [Async.join_all_no_began 0 acts e he]
  · intro j c h
    constructor
    · rw [Async._run_actions]
      simp only [List.mem_append]
      left
      have := Async.start_all_mem acts 0 j c h
      simpa using this
    · rw [Async._run_actions]
      simp only [List.mem_append]
      right
      have := Async.join_all_mem acts 0 j c h
      simpa using this
  · simp [Async.execute, BaseGroupActor._execute, Async._run_actions, Async.join_all_results]

/-- Witness for C3: in a two-child Async group whose second child fails,
both children are started and both finish. -/
theorem async_starts_all_then_joins_all_witness :
    Event.began 1 ∈ (Async._run_actions acts_c3).1 ∧
    Event.finished 1 false ∈ (Async._run_actions acts_c3).1 :=
  (async_starts_all_then_joins_all acts_c3).2.2.2.1 1 ⟨[4, 4], false⟩ (by rfl)

/-! ## Helper lemmas about group construction -/

mutual
theorem get_actor_all_dry : ∀ (s : ActSpec) (dry : Bool) (a : BuiltActor),
    get_actor s dry = Except.ok a → BuiltActor.all_dry a dry = true
  | ActSpec.leaf i v r, dry, a, h => by
    unfold get_actor at h
    split at h
    · injection h with h2
      subst h2
      simp [BuiltActor.all_dry]
    · simp at h
  | ActSpec.sync acts, dry, a, h => by
    unfold get_actor at h
    split at h
    · rename_i l hb
      injection h with h2
      subst h2
      have hl := build_actions_all_dry acts dry l hb
      simp [BuiltActor.all_dry, hl]
    · simp at h
  | ActSpec.async acts, dry, a, h => by
    unfold get_actor at h
    split at h
    · rename_i l hb
      injection h with h2
      subst h2
      have hl := build_actions_all_dry acts dry l hb
      simp [BuiltActor.all_dry, hl]
    · simp at h

theorem build_actions_all_dry : ∀ (l : ActList) (dry : Bool) (xs : BuiltList),
    _build_actions l dry = Except.ok xs → BuiltList.all_dry xs dry = true
  | ActList.nil, dry, xs, h => by
    unfold _build_actions at h
    injection h with h2
    subst h2
    rfl
  | ActList.cons a rest, dry, xs, h => by
    unfold _build_actions at h
    split at h
    · rename_i x hx
      split at h
      · rename_i xs2 hrest
        injection h with h2
        subst h2
        have ha := get_actor_all_dry a dry x hx
        have hr := build_actions_all_dry rest dry xs2 hrest
        simp [BuiltList.all_dry, ha, hr]
      · simp at h
    · simp at h
end

mutual
theorem get_actor_error_of_invalid : ∀ (s : ActSpec) (dry : Bool),
    ActSpec.has_invalid s = true →
    get_actor s dry = Except.error ConfigError.invalid_options
  | ActSpec.leaf i v r, dry, h => by
    unfold ActSpec.has_invalid at h
    have hv : v = false := by simpa using h
    subst hv
    unfold get_actor
    simp
  | ActSpec.sync acts, dry, h => by
    unfold ActSpec.has_invalid at h
    unfold get_actor
    rw [build_actions_error_of_invalid acts dry h]
  | ActSpec.async acts, dry, h => by
    unfold ActSpec.has_invalid at h
    unfold get_actor
    rw [build_actions_error_of_invalid acts dry h]

theorem build_actions_error_of_invalid : ∀ (l : ActList) (dry : Bool),
    ActList.has_invalid l = true →
    _build_actions l dry = Except.error ConfigError.invalid_options
  | ActList.nil, dry, h => by simp [ActList.has_invalid] at h
  | ActList.cons a rest, dry, h => by
    unfold ActList.has_invalid at h
    rw [Bool.or_eq_true] at h
    unfold _build_actions
    rcases h with ha | hrest
    · rw [get_actor_error_of_invalid a dry ha]
    · cases hga : get_actor a dry with
      | error e =>
        cases e
        rfl
      | ok x =>
        rw [build_actions_error_of_invalid rest dry hrest]
end

/-! ## Claim theorems: group construction -/

/-- Claim C4: every child actor of a Group is constructed with
`dry=self._dry`, the Group's own dry-run flag, so when `_build_actions`
succeeds every descendant of every built child carries exactly the Group's
flag, never overridden per-child. -/
theorem group_children_inherit_dry_flag (acts : ActList) (dry : Bool) (l : BuiltList)
    (h : _build_actions acts dry = Except.ok l) :
    BuiltList.all_dry l dry = true :=
  build_actions_all_dry acts dry l h

/-- Witness for C4: a group with a nested Async child, built with
`dry = true`, yields a tree whose every node has the dry flag set. -/
theorem group_children_inherit_dry_flag_witness :
    BuiltList.all_dry built_c4 true = true :=
  group_children_inherit_dry_flag acts_c4 true built_c4 (by rfl)

/-- Claim C8: all children of a Group are constructed, and hence validated,
during the Group's own construction: if any child specification (at any
depth) is invalid, `get_actor` on the Group fails during tree assembly and
the lifecycle produces an empty execution trace — no child's execute is
ever invoked. -/
theorem group_construction_fails_before_any_execution (acts : ActList) (dry : Bool)
    (h : ActList.has_invalid acts = true) :
    run_actor (ActSpec.sync acts) dry = ([], Except.error ConfigError.invalid_options) ∧
    run_actor (ActSpec.async acts) dry = ([], Except.error ConfigError.invalid_options) := by
  have hs := get_actor_error_of_invalid (ActSpec.sync acts) dry
    (by simpa [ActSpec.has_invalid] using h)
  have ha := get_actor_error_of_invalid (ActSpec.async acts) dry
    (by simpa [ActSpec.has_invalid] using h)
  constructor
  · rw [run_actor, hs]
  · rw [run_actor, ha]

/-- Witness for C8: a Sync group whose third child has invalid options
fails construction and executes none of its children — in particular not
the first two, which are valid. -/
theorem group_construction_fails_before_any_execution_witness :
    run_actor (ActSpec.sync acts_c8) false =
      ([], Except.error ConfigError.invalid_options) :=
  (group_construction_fails_before_any_execution acts_c8 false (by rfl)).1

/-! ## Claim theorems: WaitUntilHealthy thresholds -/

/-- Claim C5: the required healthy-instance count is the literal integer
for an integer target and `ceil(total * percentage)` for a percentage
target; in particular 10 instances at 50 percent require 5, 0 instances at
50 percent require 0, and the health predicate (in-service count at least
the required count) is vacuously satisfied on an empty instance list. -/
theorem expected_count_is_ceil_of_percentage :
    (∀ (n : Int) (t : Nat), WaitUntilHealthy._get_expected_count (CountOpt.int n) t = n) ∧
    (∀ (p : ℚ) (t : Nat), WaitUntilHealthy._get_expected_count (CountOpt.pct p) t =
      Int.ceil ((t : ℚ) * (p / 100))) ∧
    WaitUntilHealthy._get_expected_count (CountOpt.pct 50) 10 = 5 ∧
    WaitUntilHealthy._get_expected_count (CountOpt.pct 50) 0 = 0 ∧
    WaitUntilHealthy._is_healthy [] (CountOpt.pct 50) = true := by
  refine ⟨fun n t => rfl, fun p t => rfl, ?_, ?_, ?_⟩
  · simp only [WaitUntilHealthy._get_expected_count, p2f]
    norm_num
  · simp only [WaitUntilHealthy._get_expected_count, p2f]
    norm_num
  · simp only [WaitUntilHealthy._is_healthy, WaitUntilHealthy._get_expected_count, p2f,
      List.length_nil, List.count_nil, Nat.cast_zero, ge_iff_le, decide_eq_true_eq]
    norm_num

/-! ## Claim C6: dry-run behaviour of the two poll loops -/

theorem WaitUntilHealthy.wait_loop_dry_one_eval (healthy_seq : Nat → Bool) :
    ∀ fuel, 1 ≤ fuel → WaitUntilHealthy.wait_loop true healthy_seq fuel 0 = some 1 := by
  intro fuel hfuel
  cases fuel with
  | zero => omega
  | succ f =>
    rw [WaitUntilHealthy.wait_loop]
    cases h : healthy_seq 0 <;> simp [h]

theorem WaitForPackage.search_loop_no_match (matched_seq : Nat → Nat)
    (h : ∀ k, matched_seq k = 0) :
    ∀ fuel evals, WaitForPackage.search_loop true matched_seq fuel evals = none := by
  intro fuel
  induction fuel with
  | zero => intro evals; rfl
  | succ f ih => intro evals; simp [WaitForPackage.search_loop, h evals, ih]

/-- Counterexample to Claim C6 as stated: `WaitForPackage._execute` never
consults the dry flag, so in dry-run mode with a search that finds nothing
the loop is still running after five evaluations instead of terminating as
satisfied after at most one. -/
theorem waitforpackage_dry_does_not_short_circuit :
    WaitForPackage._execute true (fun _ => 0) 5 = none := by rfl

/-- Claim C6 amended: in dry-run mode `WaitUntilHealthy`'s poll loop
terminates as satisfied after exactly one condition evaluation regardless
of what the condition returns; `WaitForPackage`'s loop, however, ignores
the dry flag and keeps polling for as long as the search finds no
package. -/
theorem dry_run_poll_loop_behaviour :
    (∀ (healthy_seq : Nat → Bool) (fuel : Nat), 1 ≤ fuel →
      WaitUntilHealthy._execute true healthy_seq fuel = some 1) ∧
    (∀ (matched_seq : Nat → Nat), (∀ k, matched_seq k = 0) →
      ∀ fuel, WaitForPackage._execute true matched_seq fuel = none) := by
  constructor
  · intro healthy_seq fuel hfuel
    exact WaitUntilHealthy.wait_loop_dry_one_eval healthy_seq fuel hfuel
  · intro matched_seq h fuel
    exact WaitForPackage.search_loop_no_match matched_seq h fuel 0

/-- Witness for the amended C6: with three units of fuel and a condition
that is always false, the dry WaitUntilHealthy loop stops satisfied after
one evaluation, while the dry WaitForPackage loop is still running after
four. -/
theorem dry_run_poll_loop_behaviour_witness :
    WaitUntilHealthy._execute true (fun _ => false) 3 = some 1 ∧
    WaitForPackage._execute true (fun _ => 0) 4 = none :=
  ⟨dry_run_poll_loop_behaviour.1 (fun _ => false) 3 (by decide),
    dry_run_poll_loop_behaviour.2 (fun _ => 0) (fun _ => rfl) 4⟩

/-! ## Claim C7: the retry wrapper on register/deregister -/

theorem retry_loop_const_error (e : ActorError) :
    ∀ (fuel attempts : Nat),
      retrying_retry (fun _ => Except.error e) fuel attempts = (attempts + fuel, none) := by
  intro fuel
  induction fuel with
  | zero => intro attempts; simp [retrying_retry]
  | succ f ih =>
    intro attempts
    rw [retrying_retry]
    simp only [ih (attempts + 1)]
    have : attempts + 1 + f = attempts + (f + 1) := by omega
    rw [this]

/-- Counterexample to Claim C7 as stated: the bare retry decorator retries
an operation that always fails with an UnrecoverableError — within an
attempt budget of three, `RegisterInstance._add` makes three attempts (not
exactly one) and no error has propagated. -/
theorem retry_wrapper_retries_unrecoverable :
    RegisterInstance._add (fun _ => Except.error ActorError.unrecoverable) 3 =
      (3, none) := by rfl

/-- Claim C7 amended: the bare retry decorator on the register/deregister
mutations does not discriminate between error kinds — the source relies on
the operations being idempotent so that "any retry is OK".  An operation
that always fails with an UnrecoverableError is retried at every
opportunity: after any attempt budget the wrapper has made that many
attempts and propagated nothing, rather than attempting once and
propagating the error. -/
theorem retry_wrapper_never_stops_on_unrecoverable (fuel : Nat) :
    RegisterInstance._add (fun _ => Except.error ActorError.unrecoverable) fuel =
      (fuel, none) ∧
    DeregisterInstance._remove (fun _ => Except.error ActorError.unrecoverable) fuel =
      (fuel, none) := by
  constructor
  · rw [RegisterInstance._add]
    simpa using retry_loop_const_error ActorError.unrecoverable fuel 0
  · rw [DeregisterInstance._remove]
    simpa using retry_loop_const_error ActorError.unrecoverable fuel 0

/-! ## Claim C9: dry run performs no external mutation -/

theorem delete_versions_dry_no_effects (repo : String) (older_than number_to_keep : Nat)
    (now : Int) : ∀ (l : List Package) (n : Nat),
    (delete_versions true repo older_than number_to_keep now l n).2 = [] := by
  intro l
  induction l with
  | nil => intro n; rfl
  | cons p rest ih =>
    intro n
    unfold delete_versions
    split
    · rfl
    · split
      · exact ih n
      · simp [ih (n - 1)]

theorem delete_names_dry_no_effects (repo : String) (older_than number_to_keep : Nat)
    (now : Int) (all_packages : List Package) : ∀ (names : List String),
    (delete_names true repo older_than number_to_keep now all_packages names).2 = [] := by
  intro names
  induction names with
  | nil => rfl
  | cons name rest ih =>
    unfold delete_names
    simp [ih, delete_versions_dry_no_effects]

/-- Claim C9: with the dry flag set no external mutation occurs:
RegisterInstance records no register call, DeregisterInstance records no
deregister call, and the packagecloud delete issues no HTTP delete. -/
theorem dry_run_performs_no_mutation :
    (∀ (elb : String) (instance_id : InstanceIdOpt),
      RegisterInstance._execute true elb instance_id = [Effect.find_elb elb]) ∧
    (∀ (elb : String) (instance_id : InstanceIdOpt),
      DeregisterInstance._execute true elb instance_id = [Effect.find_elb elb]) ∧
    (∀ (pattern : String → Bool) (repo : String) (older_than number_to_keep : Nat)
      (now : Int) (all_packages : List Package),
      (PackagecloudBase._delete true pattern repo older_than number_to_keep now
        all_packages).2 = []) := by
  refine ⟨fun elb instance_id => rfl, fun elb instance_id => rfl, ?_⟩
  intro pattern repo older_than number_to_keep now all_packages
  rw [PackagecloudBase._delete]
  exact delete_names_dry_no_effects repo older_than number_to_keep now all_packages _

/-! ## Claim C10: the number_to_keep safety invariant -/

theorem delete_versions_length_le (dry : Bool) (repo : String)
    (older_than number_to_keep : Nat) (now : Int) : ∀ (l : List Package) (n : Nat),
    (delete_versions dry repo older_than number_to_keep now l n).1.length ≤
      n - number_to_keep := by
  intro l
  induction l with
  | nil => intro n; simp [delete_versions]
  | cons p rest ih =>
    intro n
    unfold delete_versions
    split
    · simp
    · split
      · exact ih n
      · rename_i hbreak hage
        simp only [List.length_cons]
        have := ih (n - 1)
        omega

theorem delete_versions_subset (dry : Bool) (repo : String)
    (older_than number_to_keep : Nat) (now : Int) : ∀ (l : List Package) (n : Nat)
    (p : Package), p ∈ (delete_versions dry repo older_than number_to_keep now l n).1 →
    p ∈ l := by
  intro l
  induction l with
  | nil => intro n p h; simp [delete_versions] at h
  | cons q rest ih =>
    intro n p h
    unfold delete_versions at h
    split at h
    · simp at h
    · split at h
      · exact List.mem_cons_of_mem q (ih n p h)
      · simp only [List.mem_cons] at h ⊢
        rcases h with rfl | h
        · left; rfl
        · right; exact ih (n - 1) p h

theorem mem_insert_desc (p a : Package) : ∀ (l : List Package),
    a ∈ insert_desc p l ↔ a = p ∨ a ∈ l := by
  intro l
  induction l with
  | nil => simp [insert_desc]
  | cons q rest ih =>
    unfold insert_desc
    split
    · simp only [List.mem_cons, ih]
      tauto
    · simp only [List.mem_cons]

theorem mem_sort_created_desc (a : Package) (l : List Package) :
    a ∈ sort_created_desc l ↔ a ∈ l := by
  suffices h : ∀ (l2 acc : List Package),
      a ∈ l2.foldl (fun acc p => insert_desc p acc) acc ↔ a ∈ acc ∨ a ∈ l2 by
    have := h l []
    simpa [sort_created_desc] using this
  intro l2
  induction l2 with
  | nil => intro acc; simp
  | cons p rest ih =>
    intro acc
    simp only [List.foldl_cons]
    rw [ih (insert_desc p acc), mem_insert_desc]
    simp only [List.mem_cons]
    tauto

theorem name_of_mem_versions (name : String) (all_packages : List Package) (p : Package)
    (h : p ∈ PackagecloudBase._get_package_versions name all_packages) :
    p.name = name := by
  rw [PackagecloudBase._get_package_versions, mem_sort_created_desc] at h
  have := List.mem_filter.1 h
  simpa using this.2

theorem delete_names_mem_name (dry : Bool) (repo : String)
    (older_than number_to_keep : Nat) (now : Int) (all_packages : List Package) :
    ∀ (names : List String) (p : Package),
    p ∈ (delete_names dry repo older_than number_to_keep now all_packages names).1 →
    p.name ∈ names := by
  intro names
  induction names with
  | nil => intro p h; simp [delete_names] at h
  | cons name rest ih =>
    intro p h
    unfold delete_names at h
    simp only [List.mem_append] at h
    rcases h with h | h
    · have hp := delete_versions_subset dry repo older_than number_to_keep now _ _ p h
      have := name_of_mem_versions name all_packages p hp
      simp [this]
    · exact List.mem_cons_of_mem _ (ih p h)

theorem delete_names_filter_nil (dry : Bool) (repo : String)
    (older_than number_to_keep : Nat) (now : Int) (all_packages : List Package)
    (name : String) (names : List String) (hname : name ∉ names) :
    (delete_names dry repo older_than number_to_keep now all_packages names).1.filter
      (fun p => p.name == name) = [] := by
  rw [List.filter_eq_nil_iff]
  intro p hp
  have := delete_names_mem_name dry repo older_than number_to_keep now all_packages
    names p hp
  simp only [beq_iff_eq]
  intro hcontra
  rw [hcontra] at this
  exact hname this

theorem delete_names_filter_bound (dry : Bool) (repo : String)
    (older_than number_to_keep : Nat) (now : Int) (all_packages : List Package)
    (name : String) : ∀ (names : List String), names.Nodup →
    ((delete_names dry repo older_than number_to_keep now all_packages names).1.filter
      (fun p => p.name == name)).length ≤
      (PackagecloudBase._get_package_versions name all_packages).length -
        number_to_keep := by
  intro names
  induction names with
  | nil => intro _; simp [delete_names]
  | cons name2 rest ih =>
    intro hnd
    rw [List.nodup_cons] at hnd
    unfold delete_names
    simp only [List.filter_append, List.length_append]
    by_cases heq : name2 = name
    · subst heq
      have h2 : (delete_names dry repo older_than number_to_keep now all_packages
          rest).1.filter (fun p => p.name == name2) = [] :=
        delete_names_filter_nil dry repo older_than number_to_keep now all_packages
          name2 rest hnd.1
      rw [h2]
      have h1 := delete_versions_length_le dry repo older_than number_to_keep now
        (PackagecloudBase._get_package_versions name2 all_packages)
        (PackagecloudBase._get_package_versions name2 all_packages).length
      have h3 := List.length_filter_le (fun p => p.name == name2)
        (delete_versions dry repo older_than number_to_keep now
          (PackagecloudBase._get_package_versions name2 all_packages)
          (PackagecloudBase._get_package_versions name2 all_packages).length).1
      simp only [List.length_nil]
      omega
    · have h1 : (delete_versions dry repo older_than number_to_keep now
          (PackagecloudBase._get_package_versions name2 all_packages)
          (PackagecloudBase._get_package_versions name2 all_packages).length).1.filter
          (fun p => p.name == name) = [] := by
        rw [List.filter_eq_nil_iff]
        intro p hp
        have hmem := delete_versions_subset dry repo older_than number_to_keep now _ _ p hp
        have := name_of_mem_versions name2 all_packages p hmem
        simp only [beq_iff_eq]
        rw [this]
        exact fun hc => heq hc
      rw [h1]
      have := ih hnd.2
      simp only [List.length_nil]
      omega

/-- Claim C10: for every repository state, number_to_keep value and package
name, the delete operation never removes versions past the keep threshold:
the number of deleted versions of a name plus `min number_to_keep
(original version count)` never exceeds the original version count, i.e. at
least `min(number_to_keep, original count)` versions survive. -/
theorem delete_keeps_number_to_keep (dry : Bool) (pattern : String → Bool)
    (repo : String) (older_than number_to_keep : Nat) (now : Int)
    (all_packages : List Package) (name : String) :
    ((PackagecloudBase._delete dry pattern repo older_than number_to_keep now
        all_packages).1.filter (fun p => p.name == name)).length +
      min number_to_keep
        (PackagecloudBase._get_package_versions name all_packages).length ≤
      (PackagecloudBase._get_package_versions name all_packages).length := by
  have hnd : (PackagecloudBase._get_packages_list_to_delete pattern all_packages).Nodup :=
    List.nodup_dedup _
  have hb := delete_names_filter_bound dry repo older_than number_to_keep now
    all_packages name _ hnd
  rw [PackagecloudBase._delete]
  rcases Nat.le_total number_to_keep
      (PackagecloudBase._get_package_versions name all_packages).length with hle | hle
  · rw [Nat.min_eq_left hle]; omega
  · rw [Nat.min_eq_right hle]; omega
